import Mathlib

/-!
Verification of `go/vt/topo/topoproto/tablet.go`.

A shallow embedding of the tablet-alias codec, tablet-type registry and
node-attribute helpers of the `topoproto` package, together with proofs of
the specification's claims about them.

Conventions of the embedding:
* Go strings are Lean `String`s (compared lexicographically, which agrees
  with Go's byte-wise comparison because UTF-8 preserves code-point order).
* Go's `uint32` is a `Nat` together with the side condition `< 2^32` where
  it matters.
* A Go pointer that may be `nil` is an `Option`.
* Functions returning `(T, error)` in Go are embedded as `Except E T` when
  every caller checks the error before using the value, and as a literal
  pair `T × Option E` when the claim is about the pair itself.
* Error values are embedded structurally: each constructor carries exactly
  the data that Go interpolates into the error message, so "the message
  includes X" becomes "the error value carries the field X".
-/

namespace Topoproto

/-- The `topodatapb.TabletAlias` message: a cell name plus a numeric uid.
The Go `Uid` field is `uint32`; here it is a `Nat` with the range side
condition `uid < 2^32` stated where relevant. -/
structure TabletAlias where
  cell : String
  uid : Nat
deriving DecidableEq, Repr

/-- VtDbPrefix + keyspace is the default name for databases. -/
def VtDbPrefix : String := "vt_"

/-- The character class `[-_.a-zA-Z0-9]` of the cell part of
`tabletAliasFormat`. -/
def isCellChar (c : Char) : Bool :=
  c = '-' || c = '_' || c = '.' ||
  ('a' ≤ c && c ≤ 'z') || ('A' ≤ c && c ≤ 'Z') || ('0' ≤ c && c ≤ '9')

/-- The character class `[0-9]` of the uid part of `tabletAliasFormat`. -/
def isDigitChar (c : Char) : Bool := '0' ≤ c && c ≤ '9'

/-- The anchored regular expression `tabletAliasFormat` from the source,
kept verbatim because the invalid-format error message quotes it. -/
def tabletAliasFormat : String := "^(?P<cell>[-_.a-zA-Z0-9]+)-(?P<uid>[0-9]+)$"

/-- Numeric value of a digit character. -/
def digitVal (c : Char) : Nat := c.toNat - '0'.toNat

/-- Decimal value of a digit string, most significant digit first.
This is the accumulation loop of Go's `strconv.ParseUint(value, 10, _)`. -/
def digitsToNat (cs : List Char) : Nat :=
  cs.foldl (fun a c => a * 10 + digitVal c) 0

/-- Error cases of `strconv.ParseUint(value, 10, 32)`, with the offending
string carried structurally: a syntax error (empty input or a non-digit
character) or a range error (value does not fit in 32 unsigned bits). -/
inductive UidError where
  | syntaxErr (value : String)
  | rangeErr (value : String)
deriving DecidableEq, Repr

/-- ParseUID parses just the uid (a number) via
`strconv.ParseUint(value, 10, 32)`, wrapping any failure. -/
def ParseUID (value : String) : Except UidError Nat :=
  if value.data = [] ∨ ¬ value.data.all isDigitChar then
    .error (.syntaxErr value)
  else if digitsToNat value.data < 2 ^ 32 then
    .ok (digitsToNat value.data)
  else
    .error (.rangeErr value)

/-- Error cases of `ParseTabletAlias`. `invalidFormat` carries the offending
alias string and the expected pattern (the two values interpolated into
`"invalid tablet alias: '%s', expecting format: '%s'"`); `invalidUid`
carries the offending alias string and wraps the underlying numeric-parse
failure (as in `vterrors.Wrapf(err, "invalid tablet uid in alias '%s'")`). -/
inductive AliasError where
  | invalidFormat (aliasStr : String) (format : String)
  | invalidUid (aliasStr : String) (uidErr : UidError)
deriving DecidableEq, Repr

/-- The submatch extraction of `tabletAliasRegexp.FindStringSubmatch` on the
anchored pattern `^(?P<cell>[-_.a-zA-Z0-9]+)-(?P<uid>[0-9]+)$`.

Because `[0-9]+` is anchored at the end and `-` is not a digit, the uid
group is exactly the maximal all-digit suffix of the input, and the `-`
separating the groups must be the character immediately before it (which is
then necessarily the last `-` of the input).  The greedy `+` on the cell
group picks exactly this decomposition.  We therefore compute it by
splitting the reversed character list at the end of its maximal digit
prefix. -/
def aliasSplit (cs : List Char) : Option (List Char × List Char) :=
  match cs.reverse.dropWhile isDigitChar with
  | '-' :: cellRev =>
    if cs.reverse.takeWhile isDigitChar ≠ [] ∧ cellRev ≠ [] ∧
        cellRev.all isCellChar then
      some (cellRev.reverse, (cs.reverse.takeWhile isDigitChar).reverse)
    else
      none
  | _ => none

/-- Direct decidable rendering of "the whole string matches
`^(?P<cell>[-_.a-zA-Z0-9]+)-(?P<uid>[0-9]+)$`": some split position yields a
non-empty all-cell-class prefix, a literal `-`, and a non-empty all-digit
suffix.  Used to state the error-handling claim independently of
`aliasSplit`; the two are proved equivalent below. -/
def matchesAliasFormat (cs : List Char) : Bool :=
  (List.range cs.length).any fun p =>
    decide (cs.take p ≠ []) && (cs.take p).all isCellChar &&
      match cs.drop p with
      | '-' :: uid => decide (uid ≠ []) && uid.all isDigitChar
      | _ => false

/-- ParseTabletAlias returns a TabletAlias for the input string,
of the form `<cell>-<uid>`. -/
def ParseTabletAlias (aliasStr : String) : Except AliasError TabletAlias :=
  match aliasSplit aliasStr.data with
  | none => .error (.invalidFormat aliasStr tabletAliasFormat)
  | some (cellPart, uidPart) =>
    match ParseUID (String.mk uidPart) with
    | .error e => .error (.invalidUid aliasStr e)
    | .ok uid => .ok ⟨String.mk cellPart, uid⟩

/-- The digit list printed by `%d` for a `Nat`: Lean core's decimal
rendering, which agrees with Go's base-10 formatting. -/
def natDigits (n : Nat) : List Char := Nat.toDigits 10 n

/-- The digit list printed by `%010d`: the decimal digits left-padded with
`'0'` to a minimum width of 10. -/
def padTo10 (n : Nat) : List Char :=
  List.replicate (10 - (natDigits n).length) '0' ++ natDigits n

/-- TabletAliasString formats a TabletAlias as
`fmt.Sprintf("%v-%010d", ta.Cell, ta.Uid)`; a nil alias formats as
`"<nil>"`. -/
def TabletAliasString : Option TabletAlias → String
  | none => "<nil>"
  | some ta => String.mk (ta.cell.data ++ '-' :: padTo10 ta.uid)

/-- Go's `<` on strings, byte-wise lexicographic comparison, expressed on
character lists (UTF-8 byte order and code-point order agree). -/
def lexLt : List Char → List Char → Bool
  | [], [] => false
  | [], _ :: _ => true
  | _ :: _, [] => false
  | a :: as, b :: bs =>
    if a < b then true
    else if b < a then false
    else lexLt as bs

/-- Go's `<` on strings. -/
def stringLt (a b : String) : Bool := lexLt a.data b.data

/-- Go's `<=` on strings (as used by `sort.Strings`' non-decreasing
output): `a <= b` iff not `b < a`. -/
def stringLe (a b : String) : Bool := ! stringLt b a

/-- TabletAliasList is used mainly for sorting.  Its elements are Go
pointers, hence `Option TabletAlias`. -/
abbrev TabletAliasList := List (Option TabletAlias)

/-- The comparator `TabletAliasList.Less` from `sort.Interface`, expressed on the two
dereferenced elements it compares: first the cells with Go's string `<`
(both directions tested, as in the source), then the uids numerically. -/
def TabletAliasList.Less (a b : TabletAlias) : Bool :=
  if stringLt a.cell b.cell then true
  else if stringLt b.cell a.cell then false
  else decide (a.uid < b.uid)

/-- The method `TabletAliasList.ToStringSlice` maps `TabletAliasString` over the
list, writing result `i` from input `i`. -/
def TabletAliasList.ToStringSlice (tal : TabletAliasList) : List String :=
  tal.map TabletAliasString

/-- TabletAliasEqual is `proto.Equal` on two `*TabletAlias`: true when
both are nil, false when exactly one is, structural field equality
otherwise. -/
def TabletAliasEqual (left right : Option TabletAlias) : Bool :=
  left == right

/-- Modelled from the spec: the role ("tablet type") enumeration of the
descriptor schema (`topodatapb.TabletType`, generated proto code outside
the supplied source).  The spec lists the closed set UNKNOWN, PRIMARY,
REPLICA, RDONLY, BATCH, SPARE, EXPERIMENTAL, BACKUP, RESTORE, DRAINED and
notes that aliased roles such as BATCH/RDONLY remain distinct values. -/
inductive TabletType where
  | UNKNOWN
  | PRIMARY
  | REPLICA
  | RDONLY
  | BATCH
  | SPARE
  | EXPERIMENTAL
  | BACKUP
  | RESTORE
  | DRAINED
deriving DecidableEq, Repr

/-- Modelled from the spec: the proto enum's `String()` method, the role's
canonical uppercase display name.  Per the source comment on
`MakeUniqueStringTypeList` ("some types are aliases for others, like BATCH
and RDONLY, so e.g. rdonly shows up twice in the list"), BATCH shares
RDONLY's canonical display name. -/
def TabletType.toCanonicalName : TabletType → String
  | .UNKNOWN => "UNKNOWN"
  | .PRIMARY => "PRIMARY"
  | .REPLICA => "REPLICA"
  | .RDONLY => "RDONLY"
  | .BATCH => "RDONLY"
  | .SPARE => "SPARE"
  | .EXPERIMENTAL => "EXPERIMENTAL"
  | .BACKUP => "BACKUP"
  | .RESTORE => "RESTORE"
  | .DRAINED => "DRAINED"

/-- Modelled from the spec: `topodatapb.TabletType_value`, the fixed
name-to-value table of the role enumeration (uppercase names). -/
def TabletType_value (name : String) : Option TabletType :=
  if name = "UNKNOWN" then some .UNKNOWN
  else if name = "PRIMARY" then some .PRIMARY
  else if name = "REPLICA" then some .REPLICA
  else if name = "RDONLY" then some .RDONLY
  else if name = "BATCH" then some .BATCH
  else if name = "SPARE" then some .SPARE
  else if name = "EXPERIMENTAL" then some .EXPERIMENTAL
  else if name = "BACKUP" then some .BACKUP
  else if name = "RESTORE" then some .RESTORE
  else if name = "DRAINED" then some .DRAINED
  else none

/-- Go's `strings.ToUpper`, restricted to its ASCII action (every input this
package feeds it is ASCII): uppercase each character. -/
def toUpperString (s : String) : String := String.mk (s.data.map Char.toUpper)

/-- Go's `strings.ToLower`, restricted to its ASCII action: lowercase each
character. -/
def toLowerString (s : String) : String := String.mk (s.data.map Char.toLower)

/-- ParseTabletType parses the tablet type into the enum.  Embedded as
Go's literal `(TabletType, error)` pair: on failure the value component is
`UNKNOWN` and the error component carries the message
`fmt.Errorf("unknown TabletType %v", param)`. -/
def ParseTabletType (param : String) : TabletType × Option String :=
  match TabletType_value (toUpperString param) with
  | some t => (t, none)
  | none => (.UNKNOWN, some ("unknown TabletType " ++ param))

/-- Go's `strings.Split(s, ",")` on the character list: Go's split on a
single-character separator, where splitting the empty string yields one
empty field. -/
def splitComma : List Char → List (List Char)
  | [] => [[]]
  | c :: cs =>
    if c = ',' then [] :: splitComma cs
    else
      match splitComma cs with
      | [] => [[c]]
      | field :: rest => (c :: field) :: rest

/-- The loop of `ParseTabletTypes`: parse each comma-separated field with
`ParseTabletType`, failing fast on the first field whose error component is
non-nil. -/
def parseTypesLoop : List String → Except String (List TabletType)
  | [] => .ok []
  | s :: rest =>
    match ParseTabletType s with
    | (_, some e) => .error e
    | (t, none) =>
      match parseTypesLoop rest with
      | .error e => .error e
      | .ok ts => .ok (t :: ts)

/-- ParseTabletTypes parses a comma separated list of tablet types and
returns a slice with the respective enums. -/
def ParseTabletTypes (param : String) : Except String (List TabletType) :=
  parseTypesLoop ((splitComma param.data).map String.mk)

/-- Go's `sort.Strings`: ascending lexicographic sort.  (Insertion sort;
for a total order on strings any correct sort produces this list.) -/
def sortStrings (strs : List String) : List String :=
  strs.insertionSort fun a b => stringLe a b = true

/-- MakeStringTypeList returns a list of strings that match the input
list: each type's lowercased canonical name, sorted; duplicates kept. -/
def MakeStringTypeList (types : List TabletType) : List String :=
  sortStrings (types.map fun t => toLowerString t.toCanonicalName)

/-- The accumulation loop of `MakeUniqueStringTypeList`: skip a type whose
canonical name (`t.String()`, before lowercasing) was already seen,
otherwise emit the lowercased name and record the canonical name. -/
def uniqueTypesLoop : List TabletType → List String → List String
  | [], _ => []
  | t :: ts, seen =>
    if t.toCanonicalName ∈ seen then uniqueTypesLoop ts seen
    else toLowerString t.toCanonicalName :: uniqueTypesLoop ts (t.toCanonicalName :: seen)

/-- MakeUniqueStringTypeList returns a unique list of strings that match
the input list, with duplicate types (by canonical name) removed, sorted. -/
def MakeUniqueStringTypeList (types : List TabletType) : List String :=
  sortStrings (uniqueTypesLoop types [])

/-- IsServingType returns true if the tablet type is one that should be
serving to be healthy. -/
def IsServingType : TabletType → Bool
  | .PRIMARY | .REPLICA | .BATCH | .EXPERIMENTAL => true
  | _ => false

/-- The node descriptor (`topodatapb.Tablet`), restricted to the fields
this package reads; field names follow the spec's descriptor structure
(the proto definition is outside the supplied source). -/
structure Tablet where
  Alias : Option TabletAlias := none
  Keyspace : String := ""
  Shard : String := ""
  DbNameOverride : String := ""
deriving DecidableEq, Repr

/-- IsTabletInList returns true if the tablet is in the list of tablets
given, comparing only the `Alias` fields via `TabletAliasEqual`. -/
def IsTabletInList (tablet : Tablet) (allTablets : List Tablet) : Bool :=
  allTablets.any fun tab => TabletAliasEqual tablet.Alias tab.Alias

/-- TabletDbName returns the override verbatim when non-empty, otherwise empty
for an empty keyspace, otherwise `VtDbPrefix + keyspace`. -/
def TabletDbName (tablet : Tablet) : String :=
  if tablet.DbNameOverride ≠ "" then tablet.DbNameOverride
  else if tablet.Keyspace = "" then ""
  else VtDbPrefix ++ tablet.Keyspace

/-! ## Decimal digit lemmas -/

theorem isDigitChar_digitChar {d : Nat} (h : d < 10) :
    isDigitChar (Nat.digitChar d) = true := by
  interval_cases d <;> decide

theorem digitVal_digitChar {d : Nat} (h : d < 10) :
    digitVal (Nat.digitChar d) = d := by
  interval_cases d <;> decide

theorem foldl_digits_shift (l : List Char) (a : Nat) :
    l.foldl (fun a c => a * 10 + digitVal c) a = a * 10 ^ l.length + digitsToNat l := by
  induction l generalizing a with
  | nil => simp [digitsToNat]
  | cons c l ih =>
    simp only [digitsToNat, List.foldl_cons, List.length_cons]
    rw [ih (a * 10 + digitVal c), ih (0 * 10 + digitVal c)]
    ring

theorem digitsToNat_append (l₁ l₂ : List Char) :
    digitsToNat (l₁ ++ l₂) = digitsToNat l₁ * 10 ^ l₂.length + digitsToNat l₂ := by
  simp only [digitsToNat, List.foldl_append]
  rw [foldl_digits_shift]
  rfl

theorem digitsToNat_replicate_zero (k : Nat) :
    digitsToNat (List.replicate k '0') = 0 := by
  induction k with
  | zero => rfl
  | succ k ih =>
    simp only [List.replicate_succ, digitsToNat, List.foldl_cons] at ih ⊢
    simpa [digitVal] using ih

/-- The core computation behind `%d`: with enough fuel, `Nat.toDigitsCore`
prepends to its accumulator a non-empty all-digit prefix whose decimal
value is `n`, using at most `k` digits whenever `n < 10 ^ k`. -/
theorem toDigitsCore_spec :
    ∀ (fuel n : Nat) (ds : List Char), n < fuel →
      ∃ pre : List Char,
        Nat.toDigitsCore 10 fuel n ds = pre ++ ds ∧ pre ≠ [] ∧
        pre.all isDigitChar = true ∧ digitsToNat pre = n ∧
        ∀ k, 0 < k → n < 10 ^ k → pre.length ≤ k := by
  intro fuel
  induction fuel with
  | zero => intro n ds h; omega
  | succ fuel ih =>
    intro n ds _
    show ∃ pre, (if n / 10 = 0 then Nat.digitChar (n % 10) :: ds
        else Nat.toDigitsCore 10 fuel (n / 10) (Nat.digitChar (n % 10) :: ds)) = pre ++ ds ∧ _
    by_cases h0 : n / 10 = 0
    · have hn : n < 10 := by omega
      have hmod : n % 10 = n := Nat.mod_eq_of_lt hn
      refine ⟨[Nat.digitChar (n % 10)], ?_, by simp, ?_, ?_, ?_⟩
      · simp [h0]
      · simp [isDigitChar_digitChar (Nat.mod_lt n (by omega))]
      · simp only [digitsToNat, List.foldl_cons, List.foldl_nil]
        rw [hmod, digitVal_digitChar hn]
        omega
      · intro k hk _; simpa using hk
    · have hlt : n / 10 < fuel := by omega
      obtain ⟨pre, heq, hne, hall, hval, hlen⟩ :=
        ih (n / 10) (Nat.digitChar (n % 10) :: ds) hlt
      refine ⟨pre ++ [Nat.digitChar (n % 10)], ?_, by simp, ?_, ?_, ?_⟩
      · simp only [if_neg h0, heq, List.append_assoc, List.singleton_append]
      · simp [List.all_append, hall, isDigitChar_digitChar (Nat.mod_lt n (by omega))]
      · rw [digitsToNat_append, hval]
        simp only [List.length_singleton, pow_one, digitsToNat, List.foldl_cons, List.foldl_nil]
        rw [digitVal_digitChar (Nat.mod_lt n (by omega))]
        omega
      · intro k hk hnk
        match k, hk with
        | 1, _ => omega
        | j + 2, _ =>
          have hdiv : n / 10 < 10 ^ (j + 1) := by
            rw [Nat.div_lt_iff_lt_mul (by omega)]
            calc n < 10 ^ (j + 2) := hnk
              _ = 10 ^ (j + 1) * 10 := by ring
          have := hlen (j + 1) (by omega) hdiv
          simp only [List.length_append, List.length_singleton]
          omega

theorem natDigits_spec (n : Nat) :
    natDigits n ≠ [] ∧ (natDigits n).all isDigitChar = true ∧
    digitsToNat (natDigits n) = n ∧
    ∀ k, 0 < k → n < 10 ^ k → (natDigits n).length ≤ k := by
  obtain ⟨pre, heq, hne, hall, hval, hlen⟩ := toDigitsCore_spec (n + 1) n [] (by omega)
  have : natDigits n = pre := by
    simp only [natDigits, Nat.toDigits, heq, List.append_nil]
  rw [this]
  exact ⟨hne, hall, hval, hlen⟩

theorem padTo10_all (n : Nat) : (padTo10 n).all isDigitChar = true := by
  simp only [padTo10, List.all_append, (natDigits_spec n).2.1, Bool.and_true]
  rw [List.all_eq_true]
  intro c hc
  rw [List.eq_of_mem_replicate hc]
  decide

theorem padTo10_ne_nil (n : Nat) : padTo10 n ≠ [] := by
  simp [padTo10, (natDigits_spec n).1]

theorem digitsToNat_padTo10 (n : Nat) : digitsToNat (padTo10 n) = n := by
  simp only [padTo10, digitsToNat_append, digitsToNat_replicate_zero,
    Nat.zero_mul, Nat.zero_add]
  exact (natDigits_spec n).2.2.1

theorem padTo10_length {n : Nat} (h : n < 10 ^ 10) : (padTo10 n).length = 10 := by
  have hle := (natDigits_spec n).2.2.2 10 (by omega) h
  simp only [padTo10, List.length_append, List.length_replicate]
  omega

/-! ## Alias pattern lemmas -/

/-- A decomposition `cell ++ '-' :: uid` with `uid` non-empty and all
digits and `cell` non-empty and all in the cell class: the semantics of a
full match of `tabletAliasFormat`. -/
abbrev ValidAliasSplit (cs cell uid : List Char) : Prop :=
  cs = cell ++ '-' :: uid ∧ cell ≠ [] ∧ cell.all isCellChar = true ∧
    uid ≠ [] ∧ uid.all isDigitChar = true

theorem aliasSplit_of_valid {cell uid : List Char}
    (hcell : cell ≠ []) (hcellc : cell.all isCellChar = true)
    (huid : uid ≠ []) (huidc : uid.all isDigitChar = true) :
    aliasSplit (cell ++ '-' :: uid) = some (cell, uid) := by
  have hrev : (cell ++ '-' :: uid).reverse = uid.reverse ++ '-' :: cell.reverse := by
    simp [List.reverse_append]
  have hmem : ∀ a ∈ uid.reverse, isDigitChar a = true := fun a ha =>
    List.all_eq_true.mp huidc a (List.mem_reverse.mp ha)
  have htake : (uid.reverse ++ '-' :: cell.reverse).takeWhile isDigitChar = uid.reverse := by
    rw [List.takeWhile_append_of_pos hmem, List.takeWhile_cons_of_neg (by decide)]
    simp
  have hdrop : (uid.reverse ++ '-' :: cell.reverse).dropWhile isDigitChar =
      '-' :: cell.reverse := by
    rw [List.dropWhile_append_of_pos hmem, List.dropWhile_cons_of_neg (by decide)]
  simp only [aliasSplit, hrev, htake, hdrop]
  rw [if_pos]
  · simp
  · exact ⟨by simpa using huid, by simpa using hcell, by simpa using hcellc⟩

theorem aliasSplit_sound {cs : List Char} {cell uid : List Char}
    (h : aliasSplit cs = some (cell, uid)) : ValidAliasSplit cs cell uid := by
  unfold aliasSplit at h
  split at h
  case h_2 => exact absurd h (by simp)
  case h_1 cellRev heq =>
    split at h
    case isFalse => exact absurd h (by simp)
    case isTrue hcond =>
      obtain ⟨hune, hcne, hcall⟩ := hcond
      obtain ⟨hcell, huid⟩ := Prod.mk.inj (Option.some.inj h)
      have hsplit : cs.reverse = cs.reverse.takeWhile isDigitChar ++ '-' :: cellRev := by
        conv_lhs => rw [← List.takeWhile_append_dropWhile (p := isDigitChar) (l := cs.reverse)]
        rw [heq]
      have hcs : cs = cellRev.reverse ++ '-' :: (cs.reverse.takeWhile isDigitChar).reverse := by
        have := congrArg List.reverse hsplit
        simpa [List.reverse_append] using this
      refine ⟨by rw [← hcell, ← huid]; exact hcs, ?_, ?_, ?_, ?_⟩
      · rw [← hcell]; simpa using hcne
      · rw [← hcell]; simpa using hcall
      · rw [← huid]; simpa using hune
      · rw [← huid]; simp

theorem aliasSplit_none {cs : List Char}
    (h : ∀ cell uid, ¬ ValidAliasSplit cs cell uid) : aliasSplit cs = none := by
  rcases heq : aliasSplit cs with _ | ⟨cell, uid⟩
  · rfl
  · exact absurd (aliasSplit_sound heq) (h cell uid)

theorem matchesAliasFormat_iff {cs : List Char} :
    matchesAliasFormat cs = true ↔ ∃ cell uid, ValidAliasSplit cs cell uid := by
  constructor
  · intro h
    obtain ⟨p, hp, hcond⟩ := List.any_eq_true.mp h
    rcases hdrop : cs.drop p with _ | ⟨c, uid⟩
    · rw [hdrop] at hcond
      simp at hcond
    · rw [hdrop] at hcond
      by_cases hc : c = '-'
      · subst hc
        simp only [Bool.and_eq_true, decide_eq_true_eq] at hcond
        exact ⟨cs.take p, uid, by rw [← hdrop]; exact (List.take_append_drop p cs).symm,
          hcond.1.1, hcond.1.2, hcond.2.1, hcond.2.2⟩
      · exact absurd hcond (by simp [hc])
  · rintro ⟨cell, uid, rfl, hcne, hcall, hune, huall⟩
    apply List.any_eq_true.mpr
    refine ⟨cell.length, List.mem_range.mpr (by simp), ?_⟩
    rw [List.take_left, List.drop_left]
    simp [hcne, hcall, hune, huall]

theorem ParseUID_digits {l : List Char} (hne : l ≠ []) (hall : l.all isDigitChar = true) :
    ParseUID (String.mk l) =
      if digitsToNat l < 2 ^ 32 then .ok (digitsToNat l)
      else .error (.rangeErr (String.mk l)) := by
  simp [ParseUID, hne, hall]

/-! ## String comparison lemmas -/

theorem lexLt_iff : ∀ as bs : List Char, lexLt as bs = true ↔ as < bs
  | [], [] => by
    simp only [lexLt, Bool.false_eq_true, false_iff]
    intro h
    cases h
  | [], b :: bs => by
    simp only [lexLt, true_iff]
    exact List.Lex.nil
  | a :: as, [] => by
    simp only [lexLt, Bool.false_eq_true, false_iff]
    intro h
    cases h
  | a :: as, b :: bs => by
    simp only [lexLt]
    by_cases hab : a < b
    · simp only [if_pos hab, true_iff]
      exact List.Lex.rel hab
    · rw [if_neg hab]
      by_cases hba : b < a
      · simp only [if_pos hba, Bool.false_eq_true, false_iff]
        intro h
        cases h with
        | cons h => exact absurd hba (lt_irrefl a)
        | rel h => exact hab h
      · rw [if_neg hba]
        obtain rfl : a = b := le_antisymm (not_lt.mp hba) (not_lt.mp hab)
        rw [lexLt_iff as bs]
        constructor
        · exact List.Lex.cons
        · intro h
          cases h with
          | cons h => exact h
          | rel h => exact absurd h (lt_irrefl a)

theorem stringLt_iff (a b : String) : stringLt a b = true ↔ a < b := by
  rw [stringLt, lexLt_iff]
  exact Iff.symm String.lt_iff_toList_lt

theorem stringLe_iff (a b : String) : stringLe a b = true ↔ a ≤ b := by
  unfold stringLe
  cases hlt : stringLt b a with
  | false =>
    simp only [Bool.not_false, true_iff]
    exact not_lt.mp fun hl => absurd ((stringLt_iff b a).mpr hl) (by simp [hlt])
  | true =>
    simp only [Bool.not_true, Bool.false_eq_true, false_iff, not_le]
    exact (stringLt_iff b a).mp hlt

theorem sortStrings_sorted (l : List String) :
    List.Pairwise (· ≤ ·) (sortStrings l) := by
  have htot : IsTotal String fun a b => stringLe a b = true :=
    ⟨fun a b => by simp only [stringLe_iff]; exact le_total a b⟩
  have htrans : IsTrans String fun a b => stringLe a b = true :=
    ⟨fun a b c hab hbc => by
      simp only [stringLe_iff] at hab hbc ⊢
      exact le_trans hab hbc⟩
  exact (List.sorted_insertionSort _ l).imp fun h => (stringLe_iff _ _).mp h

theorem Less_iff (a b : TabletAlias) :
    TabletAliasList.Less a b = true ↔
      a.cell < b.cell ∨ (a.cell = b.cell ∧ a.uid < b.uid) := by
  unfold TabletAliasList.Less
  by_cases h1 : stringLt a.cell b.cell = true
  · simp only [h1, if_true, true_iff]
    exact Or.inl ((stringLt_iff _ _).mp h1)
  · rw [if_neg h1]
    by_cases h2 : stringLt b.cell a.cell = true
    · simp only [h2, if_true, Bool.false_eq_true, false_iff]
      have hba := (stringLt_iff b.cell a.cell).mp h2
      rintro (h | ⟨heq, _⟩)
      · exact absurd hba (lt_asymm h)
      · rw [heq] at hba
        exact absurd hba (lt_irrefl _)
    · rw [if_neg h2]
      have hab : ¬ a.cell < b.cell := fun h => h1 ((stringLt_iff _ _).mpr h)
      have heq : a.cell = b.cell :=
        le_antisymm (not_lt.mp fun h => h2 ((stringLt_iff _ _).mpr h)) (not_lt.mp hab)
      simp [heq]

/-! ## Tablet-type list lemmas -/

theorem splitComma_ne_nil (cs : List Char) : splitComma cs ≠ [] := by
  cases cs with
  | nil => simp [splitComma]
  | cons c cs =>
    simp only [splitComma]
    split
    · simp
    · split <;> simp

theorem parseTypesLoop_ok_cons {s : String} {rest : List String} {ts : List TabletType}
    (h : parseTypesLoop (s :: rest) = .ok ts) : ts ≠ [] := by
  unfold parseTypesLoop at h
  split at h
  · exact absurd h (by simp)
  · split at h
    · exact absurd h (by simp)
    · injection h with h'
      rw [← h']
      simp

/-! ## The claims -/

/-- C1: for every identifier whose cell is a non-empty string containing
only characters from `[-_.a-zA-Z0-9]` and whose uid is in the unsigned
32-bit range, `ParseTabletAlias` applied to `TabletAliasString` of that
identifier succeeds and returns an identifier structurally equal to the
original (round-trip law). -/
theorem claim_C1 (ta : TabletAlias) (hne : ta.cell.data ≠ [])
    (hcell : ta.cell.data.all isCellChar = true) (huid : ta.uid < 2 ^ 32) :
    ParseTabletAlias (TabletAliasString (some ta)) = .ok ta := by
  have hsplit := aliasSplit_of_valid hne hcell (padTo10_ne_nil ta.uid) (padTo10_all ta.uid)
  have hdata : (TabletAliasString (some ta)).data = ta.cell.data ++ '-' :: padTo10 ta.uid := rfl
  unfold ParseTabletAlias
  rw [hdata, hsplit]
  dsimp only
  rw [ParseUID_digits (padTo10_ne_nil _) (padTo10_all _), digitsToNat_padTo10, if_pos huid]

theorem claim_C1_witness :
    ParseTabletAlias (TabletAliasString (some ⟨"zone1", 1⟩)) = .ok ⟨"zone1", 1⟩ :=
  claim_C1 ⟨"zone1", 1⟩ (by decide) (by decide) (by decide)

/-- C2: `ParseTabletAlias` fails on every input not fully matching the
anchored pattern `<cell>-<uid>` with an invalid-format error carrying the
offending string and the expected pattern; and on every input that does
match but whose digit run is out of the unsigned 32-bit range it fails
with an invalid-uid error wrapping the numeric range failure and carrying
the offending string. -/
theorem claim_C2 (s : String) :
    (matchesAliasFormat s.data = false →
      ParseTabletAlias s = .error (.invalidFormat s tabletAliasFormat)) ∧
    (∀ cell uid : List Char, ValidAliasSplit s.data cell uid →
      2 ^ 32 ≤ digitsToNat uid →
      ParseTabletAlias s = .error (.invalidUid s (.rangeErr (String.mk uid)))) := by
  constructor
  · intro h
    have hnone : aliasSplit s.data = none := by
      apply aliasSplit_none
      intro cell uid hv
      have := matchesAliasFormat_iff.mpr ⟨cell, uid, hv⟩
      rw [h] at this
      exact Bool.noConfusion this
    unfold ParseTabletAlias
    rw [hnone]
  · intro cell uid hv hrange
    obtain ⟨hcs, hcne, hcall, hune, huall⟩ := hv
    have hsplit : aliasSplit s.data = some (cell, uid) := by
      rw [hcs]
      exact aliasSplit_of_valid hcne hcall hune huall
    unfold ParseTabletAlias
    rw [hsplit]
    dsimp only
    rw [ParseUID_digits hune huall, if_neg (not_lt.mpr hrange)]

theorem claim_C2_witness :
    ParseTabletAlias "bad alias" = .error (.invalidFormat "bad alias" tabletAliasFormat) ∧
    ParseTabletAlias "cell1-4294967296" =
      .error (.invalidUid "cell1-4294967296" (.rangeErr "4294967296")) :=
  ⟨(claim_C2 "bad alias").1 (by decide),
    (claim_C2 "cell1-4294967296").2 "cell1".data "4294967296".data (by decide) (by decide)⟩

/-- C3: the list comparator orders two identifiers by cell compared
lexicographically first, then by uid numerically when the cells are equal;
and the unique `Less`-ordered rearrangement of
`[{b,1}, {a,5}, {a,2}]` is `[{a,2}, {a,5}, {b,1}]`. -/
theorem claim_C3 :
    (∀ a b : TabletAlias, TabletAliasList.Less a b = true ↔
      a.cell < b.cell ∨ (a.cell = b.cell ∧ a.uid < b.uid)) ∧
    ([⟨"b", 1⟩, ⟨"a", 5⟩, ⟨"a", 2⟩] : List TabletAlias).Perm
      [⟨"a", 2⟩, ⟨"a", 5⟩, ⟨"b", 1⟩] ∧
    List.Pairwise (fun a b => TabletAliasList.Less b a = false)
      [(⟨"a", 2⟩ : TabletAlias), ⟨"a", 5⟩, ⟨"b", 1⟩] ∧
    ∀ l : List TabletAlias, l.Perm [⟨"b", 1⟩, ⟨"a", 5⟩, ⟨"a", 2⟩] →
      List.Pairwise (fun a b => TabletAliasList.Less b a = false) l →
      l = [⟨"a", 2⟩, ⟨"a", 5⟩, ⟨"b", 1⟩] := by
  refine ⟨Less_iff, by decide, by decide, ?_⟩
  intro l hp hs
  have henum : ∀ m ∈ ([⟨"b", 1⟩, ⟨"a", 5⟩, ⟨"a", 2⟩] : List TabletAlias).permutations',
      List.Pairwise (fun a b => TabletAliasList.Less b a = false) m →
      m = [⟨"a", 2⟩, ⟨"a", 5⟩, ⟨"b", 1⟩] := by decide
  exact henum l (List.mem_permutations'.mpr hp) hs

theorem claim_C3_witness :
    ([⟨"a", 2⟩, ⟨"a", 5⟩, ⟨"b", 1⟩] : List TabletAlias) =
      [⟨"a", 2⟩, ⟨"a", 5⟩, ⟨"b", 1⟩] :=
  claim_C3.2.2.2 [⟨"a", 2⟩, ⟨"a", 5⟩, ⟨"b", 1⟩] (by decide) (by decide)

/-- C4: `ToStringSlice` preserves length and order, mapping entry `i` to
`TabletAliasString` of input entry `i`; a nil identifier maps to the
literal `"<nil>"`, and a present identifier (with in-range uid) maps to
its cell, a dash, and its uid zero-padded to 10 digits. -/
theorem claim_C4 :
    (∀ tal : TabletAliasList,
      (TabletAliasList.ToStringSlice tal).length = tal.length ∧
      ∀ i : Nat, (TabletAliasList.ToStringSlice tal)[i]? =
        (tal[i]?).map TabletAliasString) ∧
    TabletAliasString none = "<nil>" ∧
    ∀ ta : TabletAlias, ta.uid < 2 ^ 32 →
      ∃ uidStr : String,
        TabletAliasString (some ta) = ta.cell ++ "-" ++ uidStr ∧
        uidStr.length = 10 ∧ uidStr.data.all isDigitChar = true ∧
        digitsToNat uidStr.data = ta.uid := by
  refine ⟨fun tal => ⟨by simp [TabletAliasList.ToStringSlice],
    fun i => by simp [TabletAliasList.ToStringSlice]⟩, rfl, ?_⟩
  intro ta huid
  have h10 : ta.uid < 10 ^ 10 := lt_trans huid (by norm_num)
  refine ⟨String.mk (padTo10 ta.uid), ?_, ?_, padTo10_all ta.uid, digitsToNat_padTo10 ta.uid⟩
  · apply String.ext
    show ta.cell.data ++ '-' :: padTo10 ta.uid = _
    simp
  · show (padTo10 ta.uid).length = 10
    exact padTo10_length h10

theorem claim_C4_witness :
    ∃ uidStr : String,
      TabletAliasString (some ⟨"zone1", 1⟩) = "zone1" ++ "-" ++ uidStr ∧
      uidStr.length = 10 ∧ uidStr.data.all isDigitChar = true ∧
      digitsToNat uidStr.data = 1 :=
  claim_C4.2.2 ⟨"zone1", 1⟩ (by decide)

/-- C5: `ParseTabletType` uppercases its input and looks it up in the
fixed enum-name table; a known name yields that role with no error, an
unknown name yields the UNKNOWN role paired with an unknown-TabletType
error message containing the offending input. -/
theorem claim_C5 (param : String) :
    (∀ t, TabletType_value (toUpperString param) = some t →
      ParseTabletType param = (t, none)) ∧
    (TabletType_value (toUpperString param) = none →
      ParseTabletType param = (.UNKNOWN, some ("unknown TabletType " ++ param))) := by
  constructor
  · intro t ht
    simp [ParseTabletType, ht]
  · intro ht
    simp [ParseTabletType, ht]

theorem claim_C5_witness :
    ParseTabletType "replica" = (.REPLICA, none) ∧
    ParseTabletType "bogus" = (.UNKNOWN, some "unknown TabletType bogus") :=
  ⟨(claim_C5 "replica").1 .REPLICA (by decide), (claim_C5 "bogus").2 (by decide)⟩

/-- C6: BATCH and RDONLY share a canonical display name; on `[BATCH,
RDONLY]` the unique-list projection collapses to one element while the
plain projection keeps both lowercase duplicates; both projections
always produce lexicographically sorted output. -/
theorem claim_C6 :
    TabletType.toCanonicalName .BATCH = TabletType.toCanonicalName .RDONLY ∧
    MakeUniqueStringTypeList [.BATCH, .RDONLY] = ["rdonly"] ∧
    MakeStringTypeList [.BATCH, .RDONLY] = ["rdonly", "rdonly"] ∧
    (∀ types, List.Pairwise (· ≤ ·) (MakeStringTypeList types)) ∧
    (∀ types, List.Pairwise (· ≤ ·) (MakeUniqueStringTypeList types)) := by
  refine ⟨rfl, by decide, by decide, ?_, ?_⟩
  · intro types
    exact sortStrings_sorted _
  · intro types
    exact sortStrings_sorted _

/-- C7: `IsServingType` is true exactly for PRIMARY, REPLICA, BATCH and
EXPERIMENTAL, and false for every other role value, in particular
DRAINED, SPARE, BACKUP, RESTORE and UNKNOWN. -/
theorem claim_C7 :
    (∀ t : TabletType, IsServingType t = true ↔
      (t = .PRIMARY ∨ t = .REPLICA ∨ t = .BATCH ∨ t = .EXPERIMENTAL)) ∧
    IsServingType .DRAINED = false ∧ IsServingType .SPARE = false ∧
    IsServingType .BACKUP = false ∧ IsServingType .RESTORE = false ∧
    IsServingType .UNKNOWN = false := by
  refine ⟨?_, rfl, rfl, rfl, rfl, rfl⟩
  intro t
  cases t <;> decide

/-- C8: `TabletDbName` returns the override verbatim whenever it is
non-empty (regardless of keyspace); otherwise the empty string when the
keyspace is empty, and otherwise the fixed prefix `"vt_"` concatenated
with the keyspace. -/
theorem claim_C8 (tablet : Tablet) :
    (tablet.DbNameOverride ≠ "" → TabletDbName tablet = tablet.DbNameOverride) ∧
    (tablet.DbNameOverride = "" → tablet.Keyspace = "" → TabletDbName tablet = "") ∧
    (tablet.DbNameOverride = "" → tablet.Keyspace ≠ "" →
      TabletDbName tablet = "vt_" ++ tablet.Keyspace) := by
  refine ⟨fun h => ?_, fun h1 h2 => ?_, fun h1 h2 => ?_⟩
  · simp [TabletDbName, h]
  · simp [TabletDbName, h1, h2]
  · simp [TabletDbName, h1, h2, VtDbPrefix]

theorem claim_C8_witness :
    TabletDbName { DbNameOverride := "db", Keyspace := "ks1" } = "db" ∧
    TabletDbName {} = "" ∧
    TabletDbName { Keyspace := "ks1" } = "vt_ks1" :=
  ⟨(claim_C8 _).1 (by decide), (claim_C8 _).2.1 rfl rfl,
    (claim_C8 { Keyspace := "ks1" }).2.2 rfl (by decide)⟩

/-- C9: the tablet-in-list membership test decides membership solely by
equality of the alias fields: true iff some list element's alias equals
the target's alias, even when the two tablets differ in every other
field. -/
theorem claim_C9 :
    (∀ (tablet : Tablet) (allTablets : List Tablet),
      IsTabletInList tablet allTablets = true ↔
        ∃ tab ∈ allTablets, tab.Alias = tablet.Alias) ∧
    IsTabletInList ⟨some ⟨"zone1", 1⟩, "ks1", "0", "x"⟩
      [⟨some ⟨"zone1", 1⟩, "ks2", "1", "y"⟩] = true := by
  refine ⟨?_, by decide⟩
  intro tablet allTablets
  unfold IsTabletInList TabletAliasEqual
  rw [List.any_eq_true]
  constructor
  · rintro ⟨tab, htab, hbeq⟩
    exact ⟨tab, htab, (beq_iff_eq.mp hbeq).symm⟩
  · rintro ⟨tab, htab, heq⟩
    exact ⟨tab, htab, beq_iff_eq.mpr heq.symm⟩

/-- C10: parsing the empty role list fails with an unknown-TabletType
error (splitting the empty string yields one empty field, which is not a
valid role name), and whenever `ParseTabletTypes` succeeds its result is
non-empty. -/
theorem claim_C10 :
    ParseTabletTypes "" = .error ("unknown TabletType " ++ "") ∧
    ∀ (param : String) (ts : List TabletType),
      ParseTabletTypes param = .ok ts → ts ≠ [] := by
  refine ⟨by rfl, ?_⟩
  intro param ts h
  unfold ParseTabletTypes at h
  rcases hsp : splitComma param.data with _ | ⟨f, rest⟩
  · exact absurd hsp (splitComma_ne_nil _)
  · rw [hsp, List.map_cons] at h
    exact parseTypesLoop_ok_cons h

theorem claim_C10_witness : ([TabletType.REPLICA] : List TabletType) ≠ [] :=
  claim_C10.2 "replica" [.REPLICA] (by rfl)

end Topoproto
